import Mathlib

/-!
Verification of the sleep-app interval aggregator and score deriver.

The aggregation core is `fetchLast7DaysSleep` (health library): it consumes
raw HealthKit sleep samples and emits one aggregated record per assigned
calendar date.  Timestamps are modelled as natural numbers of milliseconds
on a local-time axis (the JS code reads local hours and local dates from
`Date` values; the model has no daylight-saving discontinuities).  A
calendar date is modelled as its day index `t / msPerDay`, which is a
faithful stand-in for the `YYYY-MM-DD` string the code builds: the string
is determined by, and strictly monotone in, the day index.
-/

/-- A raw HealthKit sleep sample: `startDate`/`endDate` are local-epoch
milliseconds, `value` is the stage identifier string. -/
structure RawSample where
  startDate : Nat
  endDate : Nat
  value : String
deriving DecidableEq

/-- `end.getHours()` of the JS code: local hour of day. -/
def getHours (t : Nat) : Nat := t / 3600000 % 24

/-- `getLocalDateString` of the JS code, as a day index. -/
def getLocalDate (t : Nat) : Nat := t / 86400000

/-- The `sessionDate` computed per sample: the end timestamp, shifted one
day (`24 * 60 * 60 * 1000` ms) forward when the segment ends at 14:00
local or later. -/
def sessionDate (s : RawSample) : Nat :=
  if 14 ≤ getHours s.endDate then s.endDate + 86400000 else s.endDate

/-- The `dateKey` a sample is attributed to. -/
def sessionDateKey (s : RawSample) : Nat := getLocalDate (sessionDate s)

/-- `String(sample.value).toUpperCase()`: ASCII uppercase, written over the
character list so that it evaluates inside the kernel. -/
def jsToUpperCase (s : String) : String := String.mk (s.data.map Char.toUpper)

/-- `val === "REM" || val === "ASLEEP_REM" || val === "5"`. -/
def isRem (val : String) : Bool :=
  val == "REM" || val == "ASLEEP_REM" || val == "5"

/-- `val === "DEEP" || val === "ASLEEP_DEEP" || val === "4"`. -/
def isDeep (val : String) : Bool :=
  val == "DEEP" || val == "ASLEEP_DEEP" || val == "4"

/-- `val === "CORE" || val === "ASLEEP_CORE" || val === "3"`. -/
def isCore (val : String) : Bool :=
  val == "CORE" || val == "ASLEEP_CORE" || val == "3"

/-- `val === "ASLEEP" || val === "1"`. -/
def isGenericAsleep (val : String) : Bool :=
  val == "ASLEEP" || val == "1"

/-- `isRem || isDeep || isCore || isGenericAsleep`: the sample counts
towards total sleep. -/
def isAsleep (val : String) : Bool :=
  isRem val || isDeep val || isCore val || isGenericAsleep val

/-- The loop `for (let t = startMs; t < endMs; t += 60000)`, collecting the
visited values of `t`.  Fuel bounds the recursion; `endMs - startMs` fuel
always suffices because each iteration advances `t` by 60000 ≥ 1. -/
def minuteLoopAux : Nat → Nat → Nat → List Nat
  | 0, _, _ => []
  | fuel + 1, t, endMs =>
    if t < endMs then t :: minuteLoopAux fuel (t + 60000) endMs else []

/-- The values of `t` visited by the per-sample minute loop. -/
def minuteTimestamps (startMs endMs : Nat) : List Nat :=
  minuteLoopAux (endMs - startMs) startMs endMs

/-- The set of minute indices `Math.floor(t / 60000)` a sample inserts. -/
def minuteIndexSet (startMs endMs : Nat) : Finset Nat :=
  ((minuteTimestamps startMs endMs).map (fun t => t / 60000)).toFinset

/-- Modelled from the spec: the spec claims the loop iterates minute-aligned
timestamps from `floor(start/60s)` up to but excluding `floor(end/60s)`.
Stated here only to be compared against `minuteIndexSet`, which is the
translation of the code. -/
def specMinuteIndexSet (startMs endMs : Nat) : Finset Nat :=
  Finset.Ico (startMs / 60000) (endMs / 60000)

/-- The four per-date minute-set maps plus the date keys that have been
touched, in first-insertion order (the code creates the four `Map` entries
for every sample, and JS `Map.forEach` iterates in insertion order). -/
structure AggMaps where
  sleepMinutesMap : Nat → Finset Nat
  remMinutesMap : Nat → Finset Nat
  deepMinutesMap : Nat → Finset Nat
  coreMinutesMap : Nat → Finset Nat
  keys : List Nat

def emptyMaps : AggMaps :=
  { sleepMinutesMap := fun _ => ∅
    remMinutesMap := fun _ => ∅
    deepMinutesMap := fun _ => ∅
    coreMinutesMap := fun _ => ∅
    keys := [] }

/-- The body of `results.forEach(...)`: one sample adds its minute indices
to the buckets selected by its (fixed) stage value, under its date key. -/
def processSample (m : AggMaps) (sample : RawSample) : AggMaps :=
  let dateKey := sessionDateKey sample
  let val := jsToUpperCase sample.value
  let minutes := minuteIndexSet sample.startDate sample.endDate
  { sleepMinutesMap := Function.update m.sleepMinutesMap dateKey
      (m.sleepMinutesMap dateKey ∪ (if isAsleep val then minutes else ∅))
    remMinutesMap := Function.update m.remMinutesMap dateKey
      (m.remMinutesMap dateKey ∪ (if isRem val then minutes else ∅))
    deepMinutesMap := Function.update m.deepMinutesMap dateKey
      (m.deepMinutesMap dateKey ∪ (if isDeep val then minutes else ∅))
    coreMinutesMap := Function.update m.coreMinutesMap dateKey
      (m.coreMinutesMap dateKey ∪ (if isCore val then minutes else ∅))
    keys := if dateKey ∈ m.keys then m.keys else m.keys ++ [dateKey] }

def aggMapsOf (results : List RawSample) : AggMaps :=
  results.foldl processSample emptyMaps

/-- One emitted per-night record. -/
structure AggregatedSleep where
  date : Nat
  totalMinutes : Nat
  remMinutes : Nat
  deepMinutes : Nat
  coreMinutes : Nat
deriving DecidableEq

/-- Insert into a descending list, keeping it descending. -/
def insertDesc (x : Nat) : List Nat → List Nat
  | [] => [x]
  | y :: ys => if y ≤ x then x :: y :: ys else y :: insertDesc x ys

/-- `finalResults.sort((a, b) => dateMs(b) - dateMs(a))`: sort the emitted
dates newest first.  Date keys are pairwise distinct, so any correct
descending sort models the JS sort; insertion sort keeps the model
kernel-computable. -/
def sortDesc (l : List Nat) : List Nat := l.foldr insertDesc []

/-- The aggregation performed by `fetchLast7DaysSleep` on the fetched
samples: build the per-date minute sets, drop dates with fewer than 15
distinct asleep minutes, emit counts, sort by date descending. -/
def fetchLast7DaysSleep (results : List RawSample) : List AggregatedSleep :=
  (sortDesc ((aggMapsOf results).keys.filter
      (fun d => ¬ ((aggMapsOf results).sleepMinutesMap d).card < 15))).map
    (fun d =>
      { date := d
        totalMinutes := ((aggMapsOf results).sleepMinutesMap d).card
        remMinutes := ((aggMapsOf results).remMinutesMap d).card
        deepMinutes := ((aggMapsOf results).deepMinutesMap d).card
        coreMinutes := ((aggMapsOf results).coreMinutesMap d).card })

/-- Declarative form of one per-date bucket: the union of the minute sets
of the samples assigned to date `d` whose stage satisfies `p`. -/
def stageUnion (p : String → Bool) (results : List RawSample) (d : Nat) :
    Finset Nat :=
  results.foldr
    (fun s acc =>
      if sessionDateKey s = d ∧ p (jsToUpperCase s.value) = true then
        minuteIndexSet s.startDate s.endDate ∪ acc
      else acc) ∅

/-- The record emitted for date `d`, in declarative form. -/
def nightFor (results : List RawSample) (d : Nat) : AggregatedSleep :=
  { date := d
    totalMinutes := (stageUnion isAsleep results d).card
    remMinutes := (stageUnion isRem results d).card
    deepMinutes := (stageUnion isDeep results d).card
    coreMinutes := (stageUnion isCore results d).card }

/-- No wall-clock minute is claimed by two different specific stages on the
same date.  Quantified over the touched date keys, hence decidable. -/
def specificStageSetsDisjoint (results : List RawSample) : Prop :=
  ∀ d ∈ (results.map sessionDateKey).toFinset,
    Disjoint (stageUnion isRem results d) (stageUnion isDeep results d) ∧
    Disjoint (stageUnion isRem results d) (stageUnion isCore results d) ∧
    Disjoint (stageUnion isDeep results d) (stageUnion isCore results d)

instance (results : List RawSample) :
    Decidable (specificStageSetsDisjoint results) := by
  unfold specificStageSetsDisjoint
  infer_instance

/-! Score and rank derivation (MySleepScreen). -/

def GOAL_MINUTES : Int := 8 * 60

/-- `Math.round` on an exact rational: round half towards plus infinity. -/
def jsRound (x : ℚ) : Int := ⌊x + 1 / 2⌋

/-- `calculateScore`: percentage of the 8 hour goal, rounded, capped above
at 100.  There is no cap below. -/
def calculateScore (totalMinutes : Int) : Int :=
  let score := jsRound ((totalMinutes : ℚ) / (GOAL_MINUTES : ℚ) * 100)
  if score > 100 then 100 else score

/-- `getRankTier`: the rank ladder, modelled by its label (the colour field
is presentation only). -/
def getRankTier (score : Int) : String :=
  if score ≥ 100 then "DIAMOND"
  else if score ≥ 90 then "PLATINUM"
  else if score ≥ 75 then "GOLD"
  else if score ≥ 50 then "SILVER"
  else "BRONZE"

/-- Modelled from the spec: `score = round(totalMinutes / goalMinutes *
100)`, clamped to a maximum of 100.  Stated to be compared against
`calculateScore`, the translation of the code. -/
def specScore (totalMinutes : Int) : Int :=
  min (jsRound ((totalMinutes : ℚ) / (GOAL_MINUTES : ℚ) * 100)) 100

/-! Upload loop of `performHealthSync` (MySleepScreen).  `post n = true`
models a successful `apiPost("/sleep/upload", ...)` for night `n`,
`post n = false` a persistence call that throws.  The whole loop runs
inside a single try block: a thrown call aborts the remaining iterations
and the accumulated `uploadedCount` is discarded (`Except.error ()`). -/

def uploadNights (post : AggregatedSleep → Bool) :
    List AggregatedSleep → Nat → Except Unit Nat
  | [], uploadedCount => Except.ok uploadedCount
  | night :: rest, uploadedCount =>
    if 0 < night.totalMinutes then
      if post night then uploadNights post rest (uploadedCount + 1)
      else Except.error ()
    else uploadNights post rest uploadedCount

/-- The nights for which the persistence call is actually reached. -/
def attemptedNights (post : AggregatedSleep → Bool) :
    List AggregatedSleep → List AggregatedSleep
  | [] => []
  | night :: rest =>
    if 0 < night.totalMinutes then
      if post night then night :: attemptedNights post rest else [night]
    else attemptedNights post rest

/-! Concrete sample batches used in counterexamples and witnesses.  Times
are local-epoch milliseconds; day `k` starts at `k * 86400000`. -/

/-- REM sample 22:00 to 22:20 on day 0 (assigned to date 1). -/
def remOverlapSample : RawSample := ⟨79200000, 80400000, "REM"⟩

/-- DEEP sample over exactly the same interval as `remOverlapSample`. -/
def deepOverlapSample : RawSample := ⟨79200000, 80400000, "DEEP"⟩

/-- DEEP sample 10:00 to 10:05 on day 7. -/
def deepTenToTenOhFive : RawSample := ⟨640800000, 641100000, "DEEP"⟩

/-- Generic ASLEEP sample 11:00 to 11:20 on day 7. -/
def asleepFiller : RawSample := ⟨644400000, 645600000, "ASLEEP"⟩

/-- REM sample 06:00 to 06:20 on day 0. -/
def remMorningSample : RawSample := ⟨21600000, 22800000, "REM"⟩

/-- DEEP sample 06:20 to 06:40 on day 0. -/
def deepMorningSample : RawSample := ⟨22800000, 24000000, "DEEP"⟩

/-! Helper lemmas about the minute loop. -/

lemma mem_minuteLoopAux (fuel : Nat) :
    ∀ t e x : Nat, e - t ≤ fuel →
      (x ∈ minuteLoopAux fuel t e ↔ ∃ k, x = t + 60000 * k ∧ x < e) := by
  induction fuel with
  | zero =>
    intro t e x h
    simp only [minuteLoopAux, List.not_mem_nil, false_iff]
    rintro ⟨k, rfl, hx⟩
    omega
  | succ fuel ih =>
    intro t e x h
    simp only [minuteLoopAux]
    by_cases hte : t < e
    · rw [if_pos hte, List.mem_cons, ih (t + 60000) e x (by omega)]
      constructor
      · rintro (rfl | ⟨k, hk, hx⟩)
        · exact ⟨0, by omega, hte⟩
        · exact ⟨k + 1, by omega, hx⟩
      · rintro ⟨k, rfl, hx⟩
        cases k with
        | zero => left; omega
        | succ k2 => right; exact ⟨k2, by omega, hx⟩
    · rw [if_neg hte]
      simp only [List.not_mem_nil, false_iff]
      rintro ⟨k, rfl, hx⟩
      omega

lemma mem_minuteIndexSet (s e m : Nat) :
    m ∈ minuteIndexSet s e ↔
      ∃ k, m = s / 60000 + k ∧ s + 60000 * k < e := by
  unfold minuteIndexSet minuteTimestamps
  rw [List.mem_toFinset, List.mem_map]
  constructor
  · rintro ⟨x, hx, rfl⟩
    rw [mem_minuteLoopAux (e - s) s e x le_rfl] at hx
    obtain ⟨k, rfl, hlt⟩ := hx
    exact ⟨k, by omega, hlt⟩
  · rintro ⟨k, rfl, hlt⟩
    refine ⟨s + 60000 * k, ?_, by omega⟩
    rw [mem_minuteLoopAux (e - s) s e _ le_rfl]
    exact ⟨k, rfl, hlt⟩

lemma minuteIndexSet_eq_Ico (s e : Nat) :
    minuteIndexSet s e =
      Finset.Ico (s / 60000) (s / 60000 + (e - s + 59999) / 60000) := by
  ext m
  rw [mem_minuteIndexSet, Finset.mem_Ico]
  constructor
  · rintro ⟨k, rfl, hlt⟩
    omega
  · rintro ⟨h1, h2⟩
    exact ⟨m - s / 60000, by omega, by omega⟩

lemma minuteIndexSet_ninety (s : Nat) :
    (minuteIndexSet s (s + 90000)).card = 2 := by
  rw [minuteIndexSet_eq_Ico, Nat.card_Ico]
  omega

/-! Helper lemmas about the descending sort. -/

lemma mem_insertDesc (x a : Nat) (l : List Nat) :
    a ∈ insertDesc x l ↔ a = x ∨ a ∈ l := by
  induction l with
  | nil => simp [insertDesc]
  | cons y ys ih =>
    simp only [insertDesc]
    by_cases h : y ≤ x
    · rw [if_pos h]
      simp [List.mem_cons]
    · rw [if_neg h]
      simp only [List.mem_cons, ih]
      tauto

lemma mem_sortDesc (a : Nat) (l : List Nat) : a ∈ sortDesc l ↔ a ∈ l := by
  induction l with
  | nil => simp [sortDesc]
  | cons y ys ih =>
    show a ∈ insertDesc y (sortDesc ys) ↔ _
    rw [mem_insertDesc, ih, List.mem_cons]

/-! Helper lemmas about the per-date bucket maps. -/

lemma stageUnion_nil (p : String → Bool) (d : Nat) :
    stageUnion p [] d = ∅ := rfl

lemma stageUnion_cons (p : String → Bool) (s : RawSample)
    (rest : List RawSample) (d : Nat) :
    stageUnion p (s :: rest) d =
      if sessionDateKey s = d ∧ p (jsToUpperCase s.value) = true then
        minuteIndexSet s.startDate s.endDate ∪ stageUnion p rest d
      else stageUnion p rest d := rfl

lemma bucket_step (f : Nat → Finset Nat) (k d : Nat) (c : Prop) [Decidable c]
    (mins R : Finset Nat) :
    Function.update f k (f k ∪ (if c then mins else ∅)) d ∪ R
      = f d ∪ (if k = d ∧ c then mins ∪ R else R) := by
  by_cases hd : k = d
  · subst hd
    rw [Function.update_same]
    by_cases hc : c
    · rw [if_pos hc, if_pos ⟨rfl, hc⟩, Finset.union_assoc]
    · rw [if_neg hc, if_neg (by tauto), Finset.union_empty]
  · rw [Function.update_noteq (fun h => hd h.symm), if_neg (by tauto)]

lemma aggMapsOf_go (results : List RawSample) :
    ∀ m : AggMaps,
      (∀ d : Nat,
        ((results.foldl processSample m).sleepMinutesMap d
            = m.sleepMinutesMap d ∪ stageUnion isAsleep results d) ∧
        ((results.foldl processSample m).remMinutesMap d
            = m.remMinutesMap d ∪ stageUnion isRem results d) ∧
        ((results.foldl processSample m).deepMinutesMap d
            = m.deepMinutesMap d ∪ stageUnion isDeep results d) ∧
        ((results.foldl processSample m).coreMinutesMap d
            = m.coreMinutesMap d ∪ stageUnion isCore results d)) ∧
      (∀ a : Nat, a ∈ (results.foldl processSample m).keys ↔
          a ∈ m.keys ∨ a ∈ results.map sessionDateKey) := by
  induction results with
  | nil =>
    intro m
    constructor
    · intro d
      refine ⟨?_, ?_, ?_, ?_⟩ <;> simp [stageUnion_nil]
    · intro a
      simp
  | cons s rest ih =>
    intro m
    obtain ⟨ihmaps, ihkeys⟩ := ih (processSample m s)
    constructor
    · intro d
      obtain ⟨h1, h2, h3, h4⟩ := ihmaps d
      refine ⟨?_, ?_, ?_, ?_⟩
      · rw [List.foldl_cons, h1, stageUnion_cons]
        exact bucket_step _ _ _ _ _ _
      · rw [List.foldl_cons, h2, stageUnion_cons]
        exact bucket_step _ _ _ _ _ _
      · rw [List.foldl_cons, h3, stageUnion_cons]
        exact bucket_step _ _ _ _ _ _
      · rw [List.foldl_cons, h4, stageUnion_cons]
        exact bucket_step _ _ _ _ _ _
    · intro a
      rw [List.foldl_cons, ihkeys a]
      have hmem : a ∈ (processSample m s).keys ↔
          a ∈ m.keys ∨ a = sessionDateKey s := by
        simp only [processSample]
        by_cases h : sessionDateKey s ∈ m.keys
        · rw [if_pos h]
          constructor
          · exact Or.inl
          · rintro (h2 | rfl)
            · exact h2
            · exact h
        · rw [if_neg h]
          simp [List.mem_append]
      rw [hmem, List.map_cons, List.mem_cons]
      tauto

lemma aggMapsOf_sleep (results : List RawSample) :
    (aggMapsOf results).sleepMinutesMap = stageUnion isAsleep results := by
  funext d
  have h := ((aggMapsOf_go results emptyMaps).1 d).1
  simpa [aggMapsOf, emptyMaps] using h

lemma aggMapsOf_rem (results : List RawSample) :
    (aggMapsOf results).remMinutesMap = stageUnion isRem results := by
  funext d
  have h := ((aggMapsOf_go results emptyMaps).1 d).2.1
  simpa [aggMapsOf, emptyMaps] using h

lemma aggMapsOf_deep (results : List RawSample) :
    (aggMapsOf results).deepMinutesMap = stageUnion isDeep results := by
  funext d
  have h := ((aggMapsOf_go results emptyMaps).1 d).2.2.1
  simpa [aggMapsOf, emptyMaps] using h

lemma aggMapsOf_core (results : List RawSample) :
    (aggMapsOf results).coreMinutesMap = stageUnion isCore results := by
  funext d
  have h := ((aggMapsOf_go results emptyMaps).1 d).2.2.2
  simpa [aggMapsOf, emptyMaps] using h

lemma mem_aggMapsOf_keys (results : List RawSample) (a : Nat) :
    a ∈ (aggMapsOf results).keys ↔ a ∈ results.map sessionDateKey := by
  have h := (aggMapsOf_go results emptyMaps).2 a
  simpa [aggMapsOf, emptyMaps] using h

lemma keys_foldl_no_new (ys : List RawSample) :
    ∀ m : AggMaps, (∀ y ∈ ys, sessionDateKey y ∈ m.keys) →
      (ys.foldl processSample m).keys = m.keys := by
  induction ys with
  | nil => intro m _; rfl
  | cons y ys ih =>
    intro m h
    rw [List.foldl_cons]
    have hk : (processSample m y).keys = m.keys := by
      simp only [processSample]
      rw [if_pos (h y (List.mem_cons_self y ys))]
    rw [ih (processSample m y) (fun z hz => by
      rw [hk]; exact h z (List.mem_cons_of_mem y hz)), hk]

lemma aggMapsOf_append (xs ys : List RawSample) :
    aggMapsOf (xs ++ ys) = ys.foldl processSample (aggMapsOf xs) := by
  unfold aggMapsOf
  rw [List.foldl_append]

lemma stageUnion_append (p : String → Bool) (xs ys : List RawSample)
    (d : Nat) :
    stageUnion p (xs ++ ys) d = stageUnion p xs d ∪ stageUnion p ys d := by
  induction xs with
  | nil => rw [List.nil_append, stageUnion_nil, Finset.empty_union]
  | cons a rest ih =>
    rw [List.cons_append, stageUnion_cons, stageUnion_cons, ih]
    by_cases hc : sessionDateKey a = d ∧ p (jsToUpperCase a.value) = true
    · rw [if_pos hc, if_pos hc, Finset.union_assoc]
    · rw [if_neg hc, if_neg hc]

lemma stageUnion_self_append (p : String → Bool) (xs : List RawSample) :
    stageUnion p (xs ++ xs) = stageUnion p xs := by
  funext d
  rw [stageUnion_append, Finset.union_self]

lemma aggMapsOf_keys_self_append (xs : List RawSample) :
    (aggMapsOf (xs ++ xs)).keys = (aggMapsOf xs).keys := by
  rw [aggMapsOf_append]
  exact keys_foldl_no_new xs (aggMapsOf xs) (fun y hy =>
    (mem_aggMapsOf_keys xs _).mpr (List.mem_map_of_mem _ hy))

lemma cond_subset_stageUnion (p : String → Bool) (xs : List RawSample)
    (s : RawSample) (hs : s ∈ xs) (d : Nat) :
    (if sessionDateKey s = d ∧ p (jsToUpperCase s.value) = true then
        minuteIndexSet s.startDate s.endDate else ∅) ⊆ stageUnion p xs d := by
  induction xs with
  | nil => cases hs
  | cons a rest ih =>
    rw [stageUnion_cons]
    rcases List.mem_cons.mp hs with h | h
    · subst h
      by_cases hc : sessionDateKey s = d ∧ p (jsToUpperCase s.value) = true
      · rw [if_pos hc, if_pos hc]
        exact Finset.subset_union_left
      · rw [if_neg hc, if_neg hc]
        exact Finset.empty_subset _
    · have h2 := ih h
      by_cases hc : sessionDateKey a = d ∧ p (jsToUpperCase a.value) = true
      · rw [if_pos hc]
        exact h2.trans Finset.subset_union_right
      · rw [if_neg hc]
        exact h2

lemma stageUnion_append_single (p : String → Bool) (xs : List RawSample)
    (s : RawSample) (hs : s ∈ xs) :
    stageUnion p (xs ++ [s]) = stageUnion p xs := by
  funext d
  rw [stageUnion_append]
  have h1 : stageUnion p [s] d =
      (if sessionDateKey s = d ∧ p (jsToUpperCase s.value) = true then
        minuteIndexSet s.startDate s.endDate else ∅) := by
    rw [stageUnion_cons, stageUnion_nil]
    by_cases hc : sessionDateKey s = d ∧ p (jsToUpperCase s.value) = true
    · rw [if_pos hc, if_pos hc, Finset.union_empty]
    · rw [if_neg hc, if_neg hc]
  rw [h1]
  exact Finset.union_eq_left.mpr (cond_subset_stageUnion p xs s hs d)

lemma aggMapsOf_keys_append_single (xs : List RawSample) (s : RawSample)
    (hs : s ∈ xs) :
    (aggMapsOf (xs ++ [s])).keys = (aggMapsOf xs).keys := by
  rw [aggMapsOf_append]
  refine keys_foldl_no_new [s] (aggMapsOf xs) (fun y hy => ?_)
  rw [List.mem_singleton] at hy
  subst hy
  exact (mem_aggMapsOf_keys xs _).mpr (List.mem_map_of_mem _ hs)

lemma stageUnion_mono (p q : String → Bool)
    (hpq : ∀ v, p v = true → q v = true) (xs : List RawSample) (d : Nat) :
    stageUnion p xs d ⊆ stageUnion q xs d := by
  induction xs with
  | nil => exact Finset.Subset.refl _
  | cons a rest ih =>
    rw [stageUnion_cons, stageUnion_cons]
    by_cases hcp : sessionDateKey a = d ∧ p (jsToUpperCase a.value) = true
    · rw [if_pos hcp, if_pos ⟨hcp.1, hpq _ hcp.2⟩]
      exact Finset.union_subset_union (Finset.Subset.refl _) ih
    · rw [if_neg hcp]
      by_cases hcq : sessionDateKey a = d ∧ q (jsToUpperCase a.value) = true
      · rw [if_pos hcq]
        exact ih.trans Finset.subset_union_right
      · rw [if_neg hcq]
        exact ih

lemma isRem_isAsleep (v : String) (h : isRem v = true) : isAsleep v = true := by
  simp [isAsleep, h]

lemma isDeep_isAsleep (v : String) (h : isDeep v = true) : isAsleep v = true := by
  simp [isAsleep, h]

lemma isCore_isAsleep (v : String) (h : isCore v = true) : isAsleep v = true := by
  simp [isAsleep, h]

lemma stageUnion_nonempty_mem (p : String → Bool) (xs : List RawSample)
    (d : Nat) (h : (stageUnion p xs d).Nonempty) :
    d ∈ xs.map sessionDateKey := by
  induction xs with
  | nil =>
    rw [stageUnion_nil] at h
    exact absurd h Finset.not_nonempty_empty
  | cons a rest ih =>
    rw [stageUnion_cons] at h
    rw [List.map_cons, List.mem_cons]
    by_cases hc : sessionDateKey a = d ∧ p (jsToUpperCase a.value) = true
    · exact Or.inl hc.1.symm
    · rw [if_neg hc] at h
      exact Or.inr (ih h)

lemma mem_fetchLast7DaysSleep (results : List RawSample)
    (n : AggregatedSleep) :
    n ∈ fetchLast7DaysSleep results ↔
      ∃ d, d ∈ results.map sessionDateKey ∧
        15 ≤ (stageUnion isAsleep results d).card ∧
        n = nightFor results d := by
  unfold fetchLast7DaysSleep
  simp only [aggMapsOf_sleep, aggMapsOf_rem, aggMapsOf_deep, aggMapsOf_core]
  constructor
  · intro hn
    rcases List.mem_map.mp hn with ⟨d, hd, hfd⟩
    rw [mem_sortDesc] at hd
    obtain ⟨hk, hc⟩ := List.mem_filter.mp hd
    refine ⟨d, (mem_aggMapsOf_keys results d).mp hk, ?_, ?_⟩
    · have hc2 := of_decide_eq_true hc
      omega
    · rw [← hfd]
      rfl
  · rintro ⟨d, hk, hc, rfl⟩
    refine List.mem_map.mpr ⟨d, ?_, rfl⟩
    rw [mem_sortDesc]
    exact List.mem_filter.mpr ⟨(mem_aggMapsOf_keys results d).mpr hk,
      decide_eq_true (by omega)⟩

/-! Helper lemmas about the score derivation. -/

lemma calculateScore_eq (t : Int) :
    calculateScore t =
      (if (10 * t + 24) / 48 > 100 then 100 else (10 * t + 24) / 48) := by
  unfold calculateScore jsRound GOAL_MINUTES
  have h : (t : ℚ) / ((8 * 60 : Int) : ℚ) * 100 + 1 / 2
      = ((10 * t + 24 : ℤ) : ℚ) / ((48 : ℕ) : ℚ) := by
    push_cast
    ring
  rw [h, Rat.floor_intCast_div_natCast]
  norm_num

/-! Helper lemmas about the upload loop. -/

lemma uploadNights_ok (post : AggregatedSleep → Bool) :
    ∀ (nights : List AggregatedSleep) (c : Nat),
      (∀ n ∈ nights, 0 < n.totalMinutes → post n = true) →
      uploadNights post nights c =
        Except.ok (c +
          (nights.filter (fun n => decide (0 < n.totalMinutes))).length) := by
  intro nights
  induction nights with
  | nil => intro c _; simp [uploadNights]
  | cons night rest ih =>
    intro c h
    simp only [uploadNights]
    by_cases hpos : 0 < night.totalMinutes
    · rw [if_pos hpos, h night (List.mem_cons_self night rest) hpos,
        if_pos rfl,
        ih (c + 1) (fun z hz => h z (List.mem_cons_of_mem night hz))]
      have hfil : (List.filter (fun n => decide (0 < n.totalMinutes))
            (night :: rest)).length
          = (List.filter (fun n => decide (0 < n.totalMinutes)) rest).length
            + 1 := by
        simp [List.filter_cons, hpos]
      rw [hfil]
      exact congrArg Except.ok (by omega)
    · rw [if_neg hpos,
        ih c (fun z hz => h z (List.mem_cons_of_mem night hz))]
      have hfil : List.filter (fun n => decide (0 < n.totalMinutes))
            (night :: rest)
          = List.filter (fun n => decide (0 < n.totalMinutes)) rest := by
        simp [List.filter_cons, hpos]
      rw [hfil]

/-! The claim theorems. -/

/-- Claim C1, counterexample: a REM sample and a DEEP sample covering the
same 20 wall-clock minutes are both emitted in full, so the emitted night
has `remMinutes + deepMinutes + coreMinutes = 40 > 20 = totalMinutes`. -/
theorem bucket_containment_cex :
    ∃ n ∈ fetchLast7DaysSleep [remOverlapSample, deepOverlapSample],
      ¬(n.remMinutes + n.deepMinutes + n.coreMinutes ≤ n.totalMinutes) := by
  decide

/-- Claim C1 (corrected): for every input batch in which no wall-clock
minute is covered by samples of two different specific stages on the same
assigned date (the per-date REM, DEEP and CORE minute sets are pairwise
disjoint), every emitted night satisfies
`remMinutes + deepMinutes + coreMinutes ≤ totalMinutes`. -/
theorem bucket_containment_of_disjoint_stages (samples : List RawSample)
    (hdisj : specificStageSetsDisjoint samples) :
    ∀ n ∈ fetchLast7DaysSleep samples,
      n.remMinutes + n.deepMinutes + n.coreMinutes ≤ n.totalMinutes := by
  intro n hn
  rcases (mem_fetchLast7DaysSleep samples n).mp hn with ⟨d, hk, _, rfl⟩
  obtain ⟨h12, h13, h23⟩ := hdisj d (List.mem_toFinset.mpr hk)
  have hsub : stageUnion isRem samples d ∪ stageUnion isDeep samples d
      ∪ stageUnion isCore samples d ⊆ stageUnion isAsleep samples d :=
    Finset.union_subset
      (Finset.union_subset (stageUnion_mono _ _ isRem_isAsleep samples d)
        (stageUnion_mono _ _ isDeep_isAsleep samples d))
      (stageUnion_mono _ _ isCore_isAsleep samples d)
  have hcard : (stageUnion isRem samples d ∪ stageUnion isDeep samples d
        ∪ stageUnion isCore samples d).card
      = (stageUnion isRem samples d).card
        + (stageUnion isDeep samples d).card
        + (stageUnion isCore samples d).card := by
    rw [Finset.card_union_of_disjoint
        (Finset.disjoint_union_left.mpr ⟨h13, h23⟩),
      Finset.card_union_of_disjoint h12]
  show (stageUnion isRem samples d).card
      + (stageUnion isDeep samples d).card
      + (stageUnion isCore samples d).card
      ≤ (stageUnion isAsleep samples d).card
  rw [← hcard]
  exact Finset.card_le_card hsub

/-- Witness for claim C1: a batch with disjoint REM and DEEP intervals
satisfies the disjointness hypothesis, emits one night, and the theorem
applies to it. -/
theorem bucket_containment_of_disjoint_stages_witness :
    specificStageSetsDisjoint [remMorningSample, deepMorningSample] ∧
    (⟨0, 40, 20, 20, 0⟩ : AggregatedSleep) ∈
        fetchLast7DaysSleep [remMorningSample, deepMorningSample] ∧
    20 + 20 + 0 ≤ (40 : Nat) :=
  ⟨by decide, by decide,
    bucket_containment_of_disjoint_stages
      [remMorningSample, deepMorningSample] (by decide)
      ⟨0, 40, 20, 20, 0⟩ (by decide)⟩

/-- Claim C2 (confirmed): two identical DEEP samples over 10:00 to 10:05
contribute exactly 5 minutes to `deepMinutes` of the emitted night (a
20-minute generic-asleep filler keeps the night above the confidence
floor); in general, appending another copy of a sample already in the
batch leaves the output unchanged, so each wall-clock minute counts at
most once per bucket regardless of how many raw samples cover it. -/
theorem overlap_dedup :
    fetchLast7DaysSleep [deepTenToTenOhFive, deepTenToTenOhFive,
        asleepFiller] = [⟨7, 25, 0, 5, 0⟩] ∧
    ∀ (samples : List RawSample) (s : RawSample), s ∈ samples →
      fetchLast7DaysSleep (samples ++ [s]) = fetchLast7DaysSleep samples := by
  constructor
  · decide
  · intro samples s hs
    unfold fetchLast7DaysSleep
    simp only [aggMapsOf_sleep, aggMapsOf_rem, aggMapsOf_deep,
      aggMapsOf_core, stageUnion_append_single _ samples s hs,
      aggMapsOf_keys_append_single samples s hs]

/-- Witness for claim C2: duplicating the DEEP sample of a concrete batch
does not change the aggregation output. -/
theorem overlap_dedup_witness :
    deepTenToTenOhFive ∈ [deepTenToTenOhFive, asleepFiller] ∧
    fetchLast7DaysSleep
        ([deepTenToTenOhFive, asleepFiller] ++ [deepTenToTenOhFive])
      = fetchLast7DaysSleep [deepTenToTenOhFive, asleepFiller] :=
  ⟨by decide,
    overlap_dedup.2 [deepTenToTenOhFive, asleepFiller] deepTenToTenOhFive
      (by decide)⟩

/-- Claim C3 (confirmed): a sample is attributed to the calendar date one
day after the date of its end timestamp when the local end hour is at
least 14, and to the end date itself otherwise; ends at 08:00, 23:30 and
exactly 14:00 on day 100 go to dates 100, 101 and 101. -/
theorem date_assignment_rule :
    (∀ s : RawSample,
      sessionDateKey s =
        if 14 ≤ getHours s.endDate then getLocalDate s.endDate + 1
        else getLocalDate s.endDate) ∧
    sessionDateKey ⟨0, 8668800000, "ASLEEP"⟩ = 100 ∧
    sessionDateKey ⟨0, 8724600000, "ASLEEP"⟩ = 101 ∧
    sessionDateKey ⟨0, 8690400000, "ASLEEP"⟩ = 101 := by
  refine ⟨?_, by decide, by decide, by decide⟩
  intro s
  unfold sessionDateKey sessionDate getLocalDate
  by_cases h : 14 ≤ getHours s.endDate
  · rw [if_pos h, if_pos h]
    omega
  · rw [if_neg h, if_neg h]

/-- Claim C4 (confirmed): a date appears in the output exactly when its
set of distinct asleep minutes has at least 15 elements; with 14 or fewer
the date is absent. -/
theorem minimum_confidence_filter (samples : List RawSample) (d : Nat) :
    (∃ n ∈ fetchLast7DaysSleep samples, n.date = d) ↔
      15 ≤ (stageUnion isAsleep samples d).card := by
  constructor
  · rintro ⟨n, hn, hdate⟩
    rcases (mem_fetchLast7DaysSleep samples n).mp hn with ⟨d2, _, hc, rfl⟩
    have hd : d2 = d := hdate
    rw [← hd]
    exact hc
  · intro hc
    have hne : (stageUnion isAsleep samples d).Nonempty :=
      Finset.card_pos.mp (by omega)
    exact ⟨nightFor samples d,
      (mem_fetchLast7DaysSleep samples _).mpr
        ⟨d, stageUnion_nonempty_mem _ _ _ hne, hc, rfl⟩, rfl⟩

/-- Claim C5, counterexample: the code steps the loop variable from the
raw (not minute-aligned) start, so a minute-aligned 90-second sample
yields the two minutes `{0, 1}` where the spec iteration yields `{0}`,
and no alignment of a 90-second sample yields exactly 1 distinct
minute. -/
theorem minute_flooring_cex :
    minuteIndexSet 0 90000 ≠ specMinuteIndexSet 0 90000 ∧
    ¬∃ startMs : Nat, (minuteIndexSet startMs (startMs + 90000)).card = 1 := by
  constructor
  · decide
  · rintro ⟨s, hs⟩
    rw [minuteIndexSet_ninety] at hs
    omega

/-- Claim C5 (corrected): the minute-index set of a sample is the block of
`ceil((end - start) / 60000)` consecutive minutes starting at
`floor(start / 60000)`; in particular every 90-second sample contributes
exactly 2 distinct minute indices, whatever its alignment. -/
theorem minute_flooring_amended :
    (∀ startMs endMs : Nat,
      minuteIndexSet startMs endMs =
        Finset.Ico (startMs / 60000)
          (startMs / 60000 + (endMs - startMs + 59999) / 60000)) ∧
    ∀ startMs : Nat, (minuteIndexSet startMs (startMs + 90000)).card = 2 :=
  ⟨minuteIndexSet_eq_Ico, minuteIndexSet_ninety⟩

/-- Claim C6, counterexample: `calculateScore` has no lower clamp, so a
negative input reaches the rounding formula unchanged: minus 480 minutes
scores minus 100, not 0. -/
theorem negative_score_cex :
    calculateScore (-480) = -100 ∧ (-100 : Int) ≠ 0 := by
  constructor
  · rw [calculateScore_eq]
    decide
  · decide

/-- Claim C6 (corrected): the score lies between 0 and 100 for every
non-negative input; negative input is passed to the rounding formula
without being clamped to 0. -/
theorem score_clamp_amended (t : Int) (ht : 0 ≤ t) :
    0 ≤ calculateScore t ∧ calculateScore t ≤ 100 := by
  simp only [calculateScore]
  have hx : (0 : ℚ) ≤ (t : ℚ) / (GOAL_MINUTES : ℚ) * 100 := by
    apply mul_nonneg
    · apply div_nonneg
      · exact_mod_cast ht
      · norm_num [GOAL_MINUTES]
    · norm_num
  constructor
  · split_ifs with hs
    · norm_num
    · unfold jsRound
      refine Int.le_floor.mpr ?_
      push_cast
      linarith
  · split_ifs with hs
    · norm_num
    · omega

/-- Witness for claim C6: the bounds hold at 240 minutes. -/
theorem score_clamp_amended_witness :
    0 ≤ calculateScore 240 ∧ calculateScore 240 ≤ 100 :=
  score_clamp_amended 240 (by decide)

/-- Claim C7 (confirmed): for non-negative input the code score equals the
spec formula `min (round (t / 480 * 100)) 100`; the rank ladder follows
the stated thresholds, and 480, 360 and 0 minutes give scores 100, 75 and
0 with tiers DIAMOND, GOLD and BRONZE. -/
theorem score_and_tier_derivation (t s : Int) (ht : 0 ≤ t) :
    calculateScore t = specScore t ∧
    ((100 ≤ s → getRankTier s = "DIAMOND") ∧
      (90 ≤ s ∧ s < 100 → getRankTier s = "PLATINUM") ∧
      (75 ≤ s ∧ s < 90 → getRankTier s = "GOLD") ∧
      (50 ≤ s ∧ s < 75 → getRankTier s = "SILVER") ∧
      (s < 50 → getRankTier s = "BRONZE")) ∧
    calculateScore 480 = 100 ∧ getRankTier (calculateScore 480) = "DIAMOND" ∧
    calculateScore 360 = 75 ∧ getRankTier (calculateScore 360) = "GOLD" ∧
    calculateScore 0 = 0 ∧ getRankTier (calculateScore 0) = "BRONZE" := by
  have h480 : calculateScore 480 = 100 := by rw [calculateScore_eq]; decide
  have h360 : calculateScore 360 = 75 := by rw [calculateScore_eq]; decide
  have h0 : calculateScore 0 = 0 := by rw [calculateScore_eq]; decide
  refine ⟨?_, ?_, h480, ?_, h360, ?_, h0, ?_⟩
  · simp only [calculateScore, specScore]
    split_ifs with hs
    · exact (min_eq_right (by omega)).symm
    · exact (min_eq_left (by omega)).symm
  · unfold getRankTier
    refine ⟨?_, ?_, ?_, ?_, ?_⟩
    · intro h
      rw [if_pos (show s ≥ 100 from h)]
    · rintro ⟨h1, h2⟩
      rw [if_neg (by omega), if_pos (show s ≥ 90 from h1)]
    · rintro ⟨h1, h2⟩
      rw [if_neg (by omega), if_neg (by omega),
        if_pos (show s ≥ 75 from h1)]
    · rintro ⟨h1, h2⟩
      rw [if_neg (by omega), if_neg (by omega), if_neg (by omega),
        if_pos (show s ≥ 50 from h1)]
    · intro h
      rw [if_neg (by omega), if_neg (by omega), if_neg (by omega),
        if_neg (by omega)]
  · rw [h480]
    decide
  · rw [h360]
    decide
  · rw [h0]
    decide

/-- Witness for claim C7: the refinement equation holds at 240 minutes. -/
theorem score_and_tier_derivation_witness :
    calculateScore 240 = specScore 240 :=
  (score_and_tier_derivation 240 95 (by decide)).1

/-- Claim C8, counterexample: when the persistence call for the first
night throws, the second night is never attempted and the loop surfaces
only the error, so a single failure does block the remaining uploads. -/
theorem upload_failure_cex :
    attemptedNights (fun n => decide (n.date ≠ 1))
        [⟨1, 20, 0, 0, 0⟩, ⟨2, 20, 0, 0, 0⟩] = [⟨1, 20, 0, 0, 0⟩] ∧
    (⟨2, 20, 0, 0, 0⟩ : AggregatedSleep) ∉
      attemptedNights (fun n => decide (n.date ≠ 1))
        [⟨1, 20, 0, 0, 0⟩, ⟨2, 20, 0, 0, 0⟩] ∧
    uploadNights (fun n => decide (n.date ≠ 1))
        [⟨1, 20, 0, 0, 0⟩, ⟨2, 20, 0, 0, 0⟩] 0 = Except.error () := by
  refine ⟨by decide, by decide, ?_⟩
  rfl

/-- Claim C8 (corrected): the upload loop runs inside one try block, so
uploads are sequential and stop at the first failing call (the night that
fails is the last one attempted); when every call succeeds the loop
reports exactly the number of nights with positive total minutes. -/
theorem upload_loop_amended :
    (∀ (post : AggregatedSleep → Bool) (nights : List AggregatedSleep),
      (∀ n ∈ nights, 0 < n.totalMinutes → post n = true) →
      uploadNights post nights 0 =
        Except.ok
          ((nights.filter (fun n => decide (0 < n.totalMinutes))).length)) ∧
    (∀ (post : AggregatedSleep → Bool) (night : AggregatedSleep)
        (rest : List AggregatedSleep),
      0 < night.totalMinutes → post night = false →
      attemptedNights post (night :: rest) = [night]) := by
  constructor
  · intro post nights h
    have h2 := uploadNights_ok post nights 0 h
    simpa using h2
  · intro post night rest hpos hpost
    simp only [attemptedNights]
    rw [if_pos hpos, hpost, if_neg (by decide)]

/-- Witness for claim C8: a fully successful run reports one upload for a
one-night batch, and a first-night failure attempts only that night. -/
theorem upload_loop_amended_witness :
    uploadNights (fun _ => true) [⟨1, 20, 0, 0, 0⟩] 0 =
      Except.ok ((([⟨1, 20, 0, 0, 0⟩] : List AggregatedSleep).filter
        (fun n => decide (0 < n.totalMinutes))).length) ∧
    attemptedNights (fun _ => false) [⟨1, 20, 0, 0, 0⟩, ⟨2, 30, 0, 0, 0⟩]
      = [⟨1, 20, 0, 0, 0⟩] :=
  ⟨upload_loop_amended.1 _ _ (fun n _ _ => rfl),
    upload_loop_amended.2 _ _ _ (by decide) rfl⟩

/-- Claim C9 (confirmed): in every emitted night each specific stage count
is bounded by the total, because every minute placed in a specific-stage
set is also placed in the total-sleep set of the same date. -/
theorem stage_buckets_le_total (samples : List RawSample)
    (n : AggregatedSleep) (hn : n ∈ fetchLast7DaysSleep samples) :
    n.remMinutes ≤ n.totalMinutes ∧ n.deepMinutes ≤ n.totalMinutes ∧
      n.coreMinutes ≤ n.totalMinutes := by
  rcases (mem_fetchLast7DaysSleep samples n).mp hn with ⟨d, _, _, rfl⟩
  exact ⟨Finset.card_le_card (stageUnion_mono _ _ isRem_isAsleep samples d),
    Finset.card_le_card (stageUnion_mono _ _ isDeep_isAsleep samples d),
    Finset.card_le_card (stageUnion_mono _ _ isCore_isAsleep samples d)⟩

/-- Witness for claim C9: the bounds hold for the night emitted from the
overlapping REM and DEEP batch. -/
theorem stage_buckets_le_total_witness :
    (⟨1, 20, 20, 20, 0⟩ : AggregatedSleep) ∈
        fetchLast7DaysSleep [remOverlapSample, deepOverlapSample] ∧
    ((20 : Nat) ≤ 20 ∧ (20 : Nat) ≤ 20 ∧ (0 : Nat) ≤ 20) :=
  ⟨by decide, stage_buckets_le_total [remOverlapSample, deepOverlapSample]
    ⟨1, 20, 20, 20, 0⟩ (by decide)⟩

/-- Claim C10 (confirmed): aggregating a batch concatenated with a copy of
itself yields exactly the same output list as aggregating the batch
once. -/
theorem duplicate_batch_invariance (samples : List RawSample) :
    fetchLast7DaysSleep (samples ++ samples)
      = fetchLast7DaysSleep samples := by
  unfold fetchLast7DaysSleep
  simp only [aggMapsOf_sleep, aggMapsOf_rem, aggMapsOf_deep, aggMapsOf_core,
    stageUnion_self_append, aggMapsOf_keys_self_append]
